import Mathlib

/-!
# Chain-of-responsibility log dispatcher (`main.cpp`)

A shallow embedding of the handler chain of `main.cpp`.

* Handler objects live in a heap (a list of objects, an address is an index);
  `next_` is an optional address, `none` being `nullptr`.
* `handle` is the virtual call `p->handle(message)`: it looks at the dynamic
  class of the object at `p` and runs that class's override.
* Effects are explicit: the file system (path to content), standard output,
  and the outcome of the call (normal return, or a thrown `std::runtime_error`
  with its `what()` string).
* Recursion through `next_` and the loop of `append_next` follow pointers of an
  arbitrary heap, so both take fuel; `none` means that the fuel ran out or a
  pointer left the heap.

Every chain studied here is made of handler objects that outlive the chain
(as if created by `new`): `append_next` stores the address of its argument, so
a chain is only meaningful while the objects it points to are alive. The
function `main` itself passes temporaries to `append_next` (lines 115 to 118);
each is destroyed at the end of its statement, so from line 116 on `main`
reads destroyed objects and its behaviour is undefined. That construction is
not modelled: `driverChain` is the chain of the same shape (root, Fatal,
Error(path), Warning, Unknown) made of live handlers, and the loop and the
messages of `main` are studied on it.

Further assumptions: opening a file for appending always succeeds, and a file
that does not exist has empty content.
-/

namespace LogChain

/-! ## Data model -/

/-- The enumeration `LogMessageType`. -/
inductive LogMessageType where
  | fatal_error
  | error
  | warning
  deriving DecidableEq

/-- Integer value of an enumerator (unscoped enum, values 0, 1, 2). -/
def LogMessageType.toInt : LogMessageType → Int
  | .fatal_error => 0
  | .error => 1
  | .warning => 2

/-- The class `LogMessage`: private fields `type_` and `message_`. -/
structure LogMessage where
  type_ : Int
  message_ : String
  deriving DecidableEq

/-- Constructor `LogMessage(message, type)`. -/
def LogMessage.ctor (message : String) (type : Int) : LogMessage :=
  { type_ := type, message_ := message }

/-- Accessor `type()`. -/
def LogMessage.type (m : LogMessage) : Int := m.type_

/-- Accessor `message()`. -/
def LogMessage.message (m : LogMessage) : String := m.message_

/-- Dynamic class of a handler object; `ErrorHandler` carries its `path_`. -/
inductive HandlerClass where
  | Handler
  | FatalHandler
  | ErrorHandler (path_ : String)
  | WarningHandler
  | UnknownHandler
  deriving DecidableEq

/-- A handler object: its dynamic class and the inherited field `next_`. -/
structure HandlerObj where
  cls : HandlerClass
  next_ : Option Nat
  deriving DecidableEq

/-- The store of handler objects; the address of an object is its index. -/
abbrev Heap := List HandlerObj

/-- The observable environment: file contents by path, and standard output. -/
structure World where
  files : String → String
  stdout : String

/-- How a call ended: normally, or by `throw std::runtime_error(what)`. -/
inductive Outcome where
  | returned
  | raised (what : String)
  deriving DecidableEq

/-- Result of a call: the environment afterwards, the outcome, and (ghost) the
addresses of the objects whose `handle` was invoked, in order. -/
structure Run where
  world : World
  outcome : Outcome
  calls : List Nat

/-- Records (ghost) that `handle` was entered on the object at `p`. -/
def Run.called (p : Nat) (r : Run) : Run :=
  { r with calls := p :: r.calls }

/-- Effect of `out.open(path, app); out << s; out.close()`. -/
def appendFile (files : String → String) (path s : String) : String → String :=
  fun p => if p = path then files p ++ s else files p

/-! ## The handlers -/

/-- Body of `Handler::handle`; `call q` is the virtual call `q->handle(message)`. -/
def Handler.handle (call : Nat → LogMessage → World → Option Run)
    (self : HandlerObj) (message : LogMessage) (w : World) : Option Run :=
  match self.next_ with
  | some nxt => call nxt message w
  | none => some ⟨w, .returned, []⟩

/-- Body of `FatalHandler::handle`. -/
def FatalHandler.handle (call : Nat → LogMessage → World → Option Run)
    (self : HandlerObj) (message : LogMessage) (w : World) : Option Run :=
  if message.type = LogMessageType.fatal_error.toInt then
    some ⟨w, .raised message.message, []⟩
  else
    match self.next_ with
    | some nxt => call nxt message w
    | none => some ⟨w, .returned, []⟩

/-- Body of `ErrorHandler::handle` for an object whose `path_` is `path_`. -/
def ErrorHandler.handle (call : Nat → LogMessage → World → Option Run)
    (path_ : String) (self : HandlerObj) (message : LogMessage) (w : World) : Option Run :=
  if message.type = LogMessageType.error.toInt then
    some ⟨{ w with files := appendFile w.files path_ ("Error: " ++ message.message ++ "\n") },
      .returned, []⟩
  else
    match self.next_ with
    | some nxt => call nxt message w
    | none => some ⟨w, .returned, []⟩

/-- Body of `WarningHandler::handle`. -/
def WarningHandler.handle (call : Nat → LogMessage → World → Option Run)
    (self : HandlerObj) (message : LogMessage) (w : World) : Option Run :=
  if message.type = LogMessageType.warning.toInt then
    some ⟨{ w with stdout := w.stdout ++ ("Warning: " ++ message.message ++ "\n") },
      .returned, []⟩
  else
    match self.next_ with
    | some nxt => call nxt message w
    | none => some ⟨w, .returned, []⟩

/-- Body of `UnknownHandler::handle`. -/
def UnknownHandler.handle (_call : Nat → LogMessage → World → Option Run)
    (_self : HandlerObj) (_message : LogMessage) (w : World) : Option Run :=
  some ⟨w, .raised "Unknow error", []⟩

/-- The virtual call `p->handle(message)` in heap `heap`. -/
def handle (heap : Heap) : Nat → Nat → LogMessage → World → Option Run
  | 0, _, _, _ => none
  | fuel + 1, p, message, w =>
    match heap[p]? with
    | none => none
    | some self =>
      (match self.cls with
        | .Handler => Handler.handle (handle heap fuel) self message w
        | .FatalHandler => FatalHandler.handle (handle heap fuel) self message w
        | .ErrorHandler path_ => ErrorHandler.handle (handle heap fuel) path_ self message w
        | .WarningHandler => WarningHandler.handle (handle heap fuel) self message w
        | .UnknownHandler => UnknownHandler.handle (handle heap fuel) self message w).map
        (Run.called p)

/-- The loop of `Handler::append_next`, started with `it` and ended by the
assignment `it->next_ = &next`. -/
def append_next (heap : Heap) : Nat → Nat → Nat → Option Heap
  | 0, _, _ => none
  | fuel + 1, it, next =>
    match heap[it]? with
    | none => none
    | some obj =>
      match obj.next_ with
      | some nx => append_next heap fuel nx next
      | none => some (heap.set it { obj with next_ := some next })

/-! ## The driver -/

/-- Creates a handler object of class `cls` with `next_ = nullptr` that stays
alive from then on; returns the new heap and the address of the object. -/
def newHandler (heap : Heap) (cls : HandlerClass) : Heap × Nat :=
  (heap ++ [⟨cls, none⟩], heap.length)

/-- The call `chain.append_next(h)` for a newly created handler `h` of class
`cls` that outlives the chain. The loop gets one unit of fuel per object of
the heap, which is enough on every chain that ends in `nullptr`. -/
def appendNew (chain : Nat) (heap : Heap) (cls : HandlerClass) : Option Heap :=
  append_next (newHandler heap cls).1 (newHandler heap cls).1.length chain
    (newHandler heap cls).2

/-- A root `Handler()` at address 0 followed by one `append_next` of a newly
created, live handler per class of `cs`, in order. -/
def buildChain (cs : List HandlerClass) : Option Heap :=
  cs.foldlM (appendNew 0) [⟨.Handler, none⟩]

/-- The chain of the shape that lines 114 to 118 of `main` set out to build,
root, Fatal, Error(`path`), Warning, Unknown, made of live handlers (`main`
uses the path `log.txt`, and temporaries that do not stay alive). -/
def driverChain (path : String) : Option Heap :=
  buildChain [.FatalHandler, .ErrorHandler path, .WarningHandler, .UnknownHandler]

/-- Chain predicate: following `next_` from the pointer `p` in `heap` visits
exactly the objects listed in `l` (address and class, in order) and then
reaches `nullptr`. A pointer with such a list heads an acyclic chain. -/
def isChain (heap : Heap) : Option Nat → List (Nat × HandlerClass) → Bool
  | none, [] => true
  | some p, (a, c) :: l =>
    match heap[a]? with
    | some obj => decide (p = a) && decide (obj.cls = c) && isChain heap obj.next_ l
    | none => false
  | _, _ => false

/-- Match predicate of a handler class, read off the condition of the first
branch of its `handle`: `Handler` has no such branch, `UnknownHandler` has no
condition. -/
def accepts : HandlerClass → LogMessage → Bool
  | .Handler, _ => false
  | .FatalHandler, m => decide (m.type = LogMessageType.fatal_error.toInt)
  | .ErrorHandler _, m => decide (m.type = LogMessageType.error.toInt)
  | .WarningHandler, m => decide (m.type = LogMessageType.warning.toInt)
  | .UnknownHandler, _ => true

/-- Terminal action of a handler class, read off the body of the first branch
of its `handle`: the environment afterwards and the outcome. -/
def terminalAction : HandlerClass → LogMessage → World → World × Outcome
  | .Handler, _, w => (w, .returned)
  | .FatalHandler, m, w => (w, .raised m.message)
  | .ErrorHandler path_, m, w =>
    ({ w with files := appendFile w.files path_ ("Error: " ++ m.message ++ "\n") }, .returned)
  | .WarningHandler, m, w =>
    ({ w with stdout := w.stdout ++ ("Warning: " ++ m.message ++ "\n") }, .returned)
  | .UnknownHandler, _, w => (w, .raised "Unknow error")

/-- Dispatch along a list of handlers: the first one that accepts the message
acts and the walk stops; when none accepts, nothing happens. -/
def walk : List (Nat × HandlerClass) → LogMessage → World → Run
  | [], _, w => ⟨w, .returned, []⟩
  | (a, c) :: l, m, w =>
    if accepts c m then ⟨(terminalAction c m w).1, (terminalAction c m w).2, [a]⟩
    else (walk l m w).called a

theorem isChain_none (heap : Heap) (l : List (Nat × HandlerClass)) :
    isChain heap none l = true ↔ l = [] := by
  cases l <;> simp [isChain]

theorem isChain_cons (heap : Heap) (p a : Nat) (c : HandlerClass)
    (l : List (Nat × HandlerClass)) :
    isChain heap (some p) ((a, c) :: l) = true ↔
      p = a ∧ ∃ nx, heap[a]? = some ⟨c, nx⟩ ∧ isChain heap nx l = true := by
  rw [isChain]
  cases h : heap[a]? with
  | none => simp
  | some obj =>
    obtain ⟨c0, nx0⟩ := obj
    simp only [Bool.and_eq_true, decide_eq_true_eq, Option.some.injEq, HandlerObj.mk.injEq]
    constructor
    · rintro ⟨⟨h1, h2⟩, h3⟩
      exact ⟨h1, nx0, ⟨h2, rfl⟩, h3⟩
    · rintro ⟨h1, nx, ⟨h2, h3⟩, h4⟩
      subst h3
      exact ⟨⟨h1, h2⟩, h4⟩

theorem isChain_some_nil (heap : Heap) (p : Nat) : isChain heap (some p) [] = false := by
  simp [isChain]

theorem isChain_unique (heap : Heap) :
    ∀ (l1 l2 : List (Nat × HandlerClass)) (p : Option Nat),
      isChain heap p l1 = true → isChain heap p l2 = true → l1 = l2 := by
  intro l1
  induction l1 with
  | nil =>
    intro l2 p h1 h2
    cases p with
    | none => exact ((isChain_none heap l2).1 h2).symm
    | some p => simp [isChain_some_nil] at h1
  | cons x l1 ih =>
    intro l2 p h1 h2
    obtain ⟨a, c⟩ := x
    cases p with
    | none => simp [isChain_none] at h1
    | some p =>
      cases l2 with
      | nil => simp [isChain_some_nil] at h2
      | cons y l2 =>
        obtain ⟨b, d⟩ := y
        obtain ⟨hpa, nx, hget, hrest⟩ := (isChain_cons heap p a c l1).1 h1
        obtain ⟨hpb, nx2, hget2, hrest2⟩ := (isChain_cons heap p b d l2).1 h2
        subst hpa
        subst hpb
        rw [hget] at hget2
        simp only [Option.some.injEq, HandlerObj.mk.injEq] at hget2
        obtain ⟨hcd, hnx⟩ := hget2
        subst hcd
        subst hnx
        rw [ih l2 nx hrest hrest2]

theorem isChain_suffix (heap : Heap) :
    ∀ (l : List (Nat × HandlerClass)) (p : Option Nat) (a : Nat),
      isChain heap p l = true → a ∈ l.map Prod.fst →
      ∃ l1 l2 c, l = l1 ++ (a, c) :: l2 ∧ isChain heap (some a) ((a, c) :: l2) = true := by
  intro l
  induction l with
  | nil => intro p a _ ha; simp at ha
  | cons x l ih =>
    intro p a h ha
    obtain ⟨b, d⟩ := x
    cases p with
    | none => simp [isChain_none] at h
    | some p =>
      obtain ⟨hpb, nx, hget, hrest⟩ := (isChain_cons heap p b d l).1 h
      subst hpb
      by_cases hab : a = p
      · subst hab
        exact ⟨[], l, d, rfl, h⟩
      · have ha2 : a ∈ l.map Prod.fst := by
          simp only [List.map_cons, List.mem_cons] at ha
          rcases ha with ha | ha
          · exact absurd ha hab
          · exact ha
        obtain ⟨l1, l2, c, hl, hc⟩ := ih nx a hrest ha2
        exact ⟨(p, d) :: l1, l2, c, by rw [hl]; rfl, hc⟩

theorem isChain_nodup (heap : Heap) :
    ∀ (l : List (Nat × HandlerClass)) (p : Option Nat),
      isChain heap p l = true → (l.map Prod.fst).Nodup := by
  intro l
  induction l with
  | nil => intro p _; simp
  | cons x l ih =>
    intro p h
    obtain ⟨a, c⟩ := x
    cases p with
    | none => simp [isChain_none] at h
    | some p =>
      obtain ⟨hpa, nx, hget, hrest⟩ := (isChain_cons heap p a c l).1 h
      subst hpa
      rw [List.map_cons, List.nodup_cons]
      refine ⟨?_, ih nx hrest⟩
      intro hmem
      obtain ⟨l1, l2, c2, hl, hc⟩ := isChain_suffix heap l nx p hrest hmem
      have heq := isChain_unique heap _ _ (some p) h hc
      have hlen := congrArg List.length heq
      rw [hl] at hlen
      simp at hlen
      omega

theorem isChain_mem_lt (heap : Heap) :
    ∀ (l : List (Nat × HandlerClass)) (p : Option Nat),
      isChain heap p l = true → ∀ a ∈ l.map Prod.fst, a < heap.length := by
  intro l
  induction l with
  | nil => intro p _ a ha; simp at ha
  | cons x l ih =>
    intro p h a ha
    obtain ⟨b, d⟩ := x
    cases p with
    | none => simp [isChain_none] at h
    | some p =>
      obtain ⟨hpb, nx, hget, hrest⟩ := (isChain_cons heap p b d l).1 h
      simp only [List.map_cons, List.mem_cons] at ha
      rcases ha with ha | ha
      · subst ha
        by_contra hlt
        rw [List.getElem?_eq_none (by omega)] at hget
        exact absurd hget (by simp)
      · exact ih nx hrest a ha

theorem isChain_set_of_not_mem (heap : Heap) (k : Nat) (obj : HandlerObj) :
    ∀ (l : List (Nat × HandlerClass)) (p : Option Nat),
      isChain heap p l = true → k ∉ l.map Prod.fst → isChain (heap.set k obj) p l = true := by
  intro l
  induction l with
  | nil =>
    intro p h _
    cases p with
    | none => rfl
    | some p => simp [isChain_some_nil] at h
  | cons x l ih =>
    intro p h hk
    obtain ⟨a, c⟩ := x
    cases p with
    | none => simp [isChain_none] at h
    | some p =>
      obtain ⟨hpa, nx, hget, hrest⟩ := (isChain_cons heap p a c l).1 h
      simp only [List.map_cons, List.mem_cons, not_or] at hk
      refine (isChain_cons _ p a c l).2 ⟨hpa, nx, ?_, ih nx hrest hk.2⟩
      rw [List.getElem?_set_ne (fun e => hk.1 e), hget]

theorem isChain_append_heap (heap ext : Heap) :
    ∀ (l : List (Nat × HandlerClass)) (p : Option Nat),
      isChain heap p l = true → isChain (heap ++ ext) p l = true := by
  intro l
  induction l with
  | nil =>
    intro p h
    cases p with
    | none => rfl
    | some p => simp [isChain_some_nil] at h
  | cons x l ih =>
    intro p h
    obtain ⟨a, c⟩ := x
    cases p with
    | none => simp [isChain_none] at h
    | some p =>
      obtain ⟨hpa, nx, hget, hrest⟩ := (isChain_cons heap p a c l).1 h
      have hlt : a < heap.length := by
        by_contra hlt
        rw [List.getElem?_eq_none (by omega)] at hget
        exact absurd hget (by simp)
      refine (isChain_cons _ p a c l).2 ⟨hpa, nx, ?_, ih nx hrest⟩
      rw [List.getElem?_append_left hlt, hget]

/-! ## `append_next` on a chain -/

theorem append_next_chain (heap : Heap) (next last : Nat) (c : HandlerClass) :
    ∀ (l0 : List (Nat × HandlerClass)) (fuel p : Nat),
      isChain heap (some p) (l0 ++ [(last, c)]) = true → l0.length + 1 ≤ fuel →
      append_next heap fuel p next = some (heap.set last ⟨c, some next⟩) := by
  intro l0
  induction l0 with
  | nil =>
    intro fuel p h hlen
    obtain ⟨hpa, nx, hget, hrest⟩ := (isChain_cons heap p last c []).1 h
    subst hpa
    cases nx with
    | some q => simp [isChain_some_nil] at hrest
    | none =>
      cases fuel with
      | zero => simp at hlen
      | succ fuel => simp [append_next, hget]
  | cons x l0 ih =>
    intro fuel p h hlen
    obtain ⟨a, d⟩ := x
    obtain ⟨hpa, nx, hget, hrest⟩ := (isChain_cons heap p a d (l0 ++ [(last, c)])).1 h
    subst hpa
    cases nx with
    | none => simp [isChain_none] at hrest
    | some q =>
      cases fuel with
      | zero => simp at hlen
      | succ fuel =>
        have hl : l0.length + 1 ≤ fuel := by simpa using hlen
        simp [append_next, hget, ih fuel q hrest hl]

theorem isChain_set_last (heap : Heap) (next last : Nat) (c : HandlerClass)
    (t : List (Nat × HandlerClass)) (ht : isChain heap (some next) t = true) :
    ∀ (l0 : List (Nat × HandlerClass)) (p : Nat),
      isChain heap (some p) (l0 ++ [(last, c)]) = true →
      (∀ a ∈ t.map Prod.fst, a ∉ (l0 ++ [(last, c)]).map Prod.fst) →
      isChain (heap.set last ⟨c, some next⟩) (some p) (l0 ++ [(last, c)] ++ t) = true := by
  intro l0
  induction l0 with
  | nil =>
    intro p h hdisj
    obtain ⟨hpa, nx, hget, _⟩ := (isChain_cons heap p last c []).1 h
    have hlt : last < heap.length := by
      by_contra hlt
      rw [List.getElem?_eq_none (by omega)] at hget
      exact absurd hget (by simp)
    have hlast : last ∉ t.map Prod.fst := fun hm => hdisj last hm (by simp)
    refine (isChain_cons _ p last c t).2 ⟨hpa, some next, ?_, ?_⟩
    · rw [List.getElem?_set_self hlt]
    · exact isChain_set_of_not_mem heap last _ t (some next) ht hlast
  | cons x l0 ih =>
    intro p h hdisj
    obtain ⟨a, d⟩ := x
    obtain ⟨hpa, nx, hget, hrest⟩ := (isChain_cons heap p a d (l0 ++ [(last, c)])).1 h
    have hnd := isChain_nodup heap _ (some p) h
    have hne : last ≠ a := by
      intro e
      simp [List.nodup_cons, e] at hnd
    cases nx with
    | none => simp [isChain_none] at hrest
    | some q =>
      have hdisj2 : ∀ b ∈ t.map Prod.fst, b ∉ (l0 ++ [(last, c)]).map Prod.fst := by
        intro b hb hmem
        exact hdisj b hb (by simp only [List.cons_append, List.map_cons, List.mem_cons]; exact Or.inr hmem)
      refine (isChain_cons _ p a d (l0 ++ [(last, c)] ++ t)).2 ⟨hpa, some q, ?_, ih q hrest hdisj2⟩
      rw [List.getElem?_set_ne hne, hget]

/-! ## Dispatch along a chain -/

theorem handle_chain (heap : Heap) (m : LogMessage) (w : World) :
    ∀ (l : List (Nat × HandlerClass)) (fuel p : Nat),
      isChain heap (some p) l = true → l.length ≤ fuel →
      handle heap fuel p m w = some (walk l m w) := by
  intro l
  induction l with
  | nil => intro fuel p h; simp [isChain_some_nil] at h
  | cons x l ih =>
    intro fuel p h hlen
    obtain ⟨a, c⟩ := x
    obtain ⟨hpa, nx, hget, hrest⟩ := (isChain_cons heap p a c l).1 h
    subst hpa
    cases fuel with
    | zero => simp at hlen
    | succ fuel =>
      rw [handle, hget]
      cases nx with
      | none =>
        have hl := (isChain_none heap l).1 hrest
        subst hl
        cases c with
        | Handler => simp [Handler.handle, walk, accepts]
        | FatalHandler =>
          by_cases hm : m.type = LogMessageType.fatal_error.toInt
          · simp [FatalHandler.handle, walk, accepts, terminalAction, hm, Run.called]
          · simp [FatalHandler.handle, walk, accepts, hm]
        | ErrorHandler path_ =>
          by_cases hm : m.type = LogMessageType.error.toInt
          · simp [ErrorHandler.handle, walk, accepts, terminalAction, hm, Run.called]
          · simp [ErrorHandler.handle, walk, accepts, hm]
        | WarningHandler =>
          by_cases hm : m.type = LogMessageType.warning.toInt
          · simp [WarningHandler.handle, walk, accepts, terminalAction, hm, Run.called]
          · simp [WarningHandler.handle, walk, accepts, hm]
        | UnknownHandler =>
          simp [UnknownHandler.handle, walk, accepts, terminalAction, Run.called]
      | some q =>
        have hfw : handle heap fuel q m w = some (walk l m w) :=
          ih fuel q hrest (by simpa using hlen)
        cases c with
        | Handler => simp [Handler.handle, walk, accepts, hfw]
        | FatalHandler =>
          by_cases hm : m.type = LogMessageType.fatal_error.toInt
          · simp [FatalHandler.handle, walk, accepts, terminalAction, hm, Run.called]
          · simp [FatalHandler.handle, walk, accepts, hm, hfw]
        | ErrorHandler path_ =>
          by_cases hm : m.type = LogMessageType.error.toInt
          · simp [ErrorHandler.handle, walk, accepts, terminalAction, hm, Run.called]
          · simp [ErrorHandler.handle, walk, accepts, hm, hfw]
        | WarningHandler =>
          by_cases hm : m.type = LogMessageType.warning.toInt
          · simp [WarningHandler.handle, walk, accepts, terminalAction, hm, Run.called]
          · simp [WarningHandler.handle, walk, accepts, hm, hfw]
        | UnknownHandler =>
          simp [UnknownHandler.handle, walk, accepts, terminalAction, Run.called]

/-! ## The chains built by the driver -/

theorem appendNew_chain (heap : Heap) (p : Nat) (c : HandlerClass)
    (l : List (Nat × HandlerClass)) (h : isChain heap (some p) l = true) :
    ∃ heap2, appendNew p heap c = some heap2 ∧ heap2.length = heap.length + 1 ∧
      isChain heap2 (some p) (l ++ [(heap.length, c)]) = true := by
  have hlt := isChain_mem_lt heap l (some p) h
  have hnd := isChain_nodup heap l (some p) h
  have hlen : l.length ≤ heap.length := by
    have h1 : (l.map Prod.fst).length ≤ (List.range heap.length).length :=
      (List.subperm_of_subset hnd
        (fun a ha => List.mem_range.2 (hlt a ha))).length_le
    simpa using h1
  rcases List.eq_nil_or_concat l with hl | ⟨l0, x, hl⟩
  · subst hl
    simp [isChain_some_nil] at h
  · obtain ⟨last, d⟩ := x
    rw [List.concat_eq_append] at hl
    subst hl
    have h1 : isChain (heap ++ [⟨c, none⟩]) (some p) (l0 ++ [(last, d)]) = true :=
      isChain_append_heap heap _ _ (some p) h
    have ht : isChain (heap ++ [⟨c, none⟩]) (some heap.length) [(heap.length, c)] = true := by
      refine (isChain_cons _ _ _ _ _).2 ⟨rfl, none, ?_, rfl⟩
      simp
    have hfuel : l0.length + 1 ≤ (heap ++ [(⟨c, none⟩ : HandlerObj)]).length := by
      simp at hlen
      simp
      omega
    have happ := append_next_chain (heap ++ [⟨c, none⟩]) heap.length last d l0 _ p h1 hfuel
    refine ⟨_, happ, by simp, ?_⟩
    refine isChain_set_last _ heap.length last d _ ht l0 p h1 ?_
    intro a ha hmem
    simp only [List.map_cons, List.map_nil, List.mem_singleton] at ha
    have := hlt a hmem
    omega

theorem buildChain_spec (cs : List HandlerClass) :
    ∃ heap, buildChain cs = some heap ∧ heap.length = cs.length + 1 ∧
      isChain heap (some 0) ((HandlerClass.Handler :: cs).enum) = true := by
  induction cs using List.reverseRecOn with
  | nil => exact ⟨[⟨.Handler, none⟩], rfl, rfl, rfl⟩
  | append_singleton cs c ih =>
    obtain ⟨heap, hb, hlen, hch⟩ := ih
    obtain ⟨heap2, h2, hlen2, hch2⟩ := appendNew_chain heap 0 c _ hch
    refine ⟨heap2, ?_, ?_, ?_⟩
    · unfold buildChain at hb ⊢
      rw [List.foldlM_append, hb]
      simpa using h2
    · simp [hlen2, hlen]
    · rw [← List.cons_append, List.enum_append]
      simpa [hlen, List.enumFrom] using hch2

/-! ## Walks -/

theorem walk_none (m : LogMessage) (w : World) :
    ∀ (l : List (Nat × HandlerClass)), (∀ x ∈ l, accepts x.2 m = false) →
      walk l m w = ⟨w, .returned, l.map Prod.fst⟩ := by
  intro l
  induction l with
  | nil => intro _; rfl
  | cons x l ih =>
    intro h
    obtain ⟨a, c⟩ := x
    have hc : accepts c m = false := h (a, c) (by simp)
    have hl := ih (fun x hx => h x (List.mem_cons_of_mem _ hx))
    simp [walk, hc, hl, Run.called]

theorem walk_first (m : LogMessage) (w : World) (a : Nat) (c : HandlerClass)
    (t : List (Nat × HandlerClass)) (hc : accepts c m = true) :
    ∀ (l : List (Nat × HandlerClass)), (∀ x ∈ l, accepts x.2 m = false) →
      walk (l ++ (a, c) :: t) m w =
        ⟨(terminalAction c m w).1, (terminalAction c m w).2, l.map Prod.fst ++ [a]⟩ := by
  intro l
  induction l with
  | nil => intro _; simp [walk, hc]
  | cons x l ih =>
    intro h
    obtain ⟨b, d⟩ := x
    have hd : accepts d m = false := h (b, d) (by simp)
    have hl := ih (fun x hx => h x (List.mem_cons_of_mem _ hx))
    simp [walk, hd, hl, Run.called]

theorem walk_calls_prefix (m : LogMessage) (w : World) :
    ∀ (l : List (Nat × HandlerClass)), (walk l m w).calls <+: l.map Prod.fst := by
  intro l
  induction l with
  | nil => simp [walk]
  | cons x l ih =>
    obtain ⟨a, c⟩ := x
    by_cases hc : accepts c m = true
    · simp [walk, hc, List.prefix_cons_inj]
    · simp only [Bool.not_eq_true] at hc
      simp only [walk, hc, Run.called, List.map_cons]
      exact (List.prefix_cons_inj a).2 ih

/-! ## The driver loop -/

/-- The heap of `driverChain path`. -/
theorem driverChain_eq (path : String) :
    driverChain path = some [⟨.Handler, some 1⟩, ⟨.FatalHandler, some 2⟩,
      ⟨.ErrorHandler path, some 3⟩, ⟨.WarningHandler, some 4⟩,
      ⟨.UnknownHandler, none⟩] := by
  rfl

/-- Dispatch through the head of `driverChain path` is the walk along
root, Fatal, Error(`path`), Warning, Unknown. -/
theorem driverChain_handle (path : String) :
    ∃ heap, driverChain path = some heap ∧
      ∀ (msg : LogMessage) (w : World) (fuel : Nat), 5 ≤ fuel →
        handle heap fuel 0 msg w =
          some (walk [(0, .Handler), (1, .FatalHandler), (2, .ErrorHandler path),
            (3, .WarningHandler), (4, .UnknownHandler)] msg w) := by
  refine ⟨_, driverChain_eq path, ?_⟩
  intro msg w fuel hfuel
  exact handle_chain _ msg w _ fuel 0 (by simp [isChain]) hfuel

/-- One call of `handle` in terms of the match predicate and the terminal
action of the class of the object. -/
theorem handle_step (heap : Heap) (p : Nat) (c : HandlerClass) (nx : Option Nat)
    (m : LogMessage) (w : World) (fuel : Nat) (hget : heap[p]? = some ⟨c, nx⟩) :
    handle heap (fuel + 1) p m w =
      if accepts c m = true then
        some ⟨(terminalAction c m w).1, (terminalAction c m w).2, [p]⟩
      else
        match nx with
        | some q => (handle heap fuel q m w).map (Run.called p)
        | none => some ⟨w, .returned, [p]⟩ := by
  rw [handle, hget]
  cases c with
  | Handler => cases nx <;> simp [Handler.handle, accepts, Run.called]
  | FatalHandler =>
    by_cases hm : m.type = LogMessageType.fatal_error.toInt
    · simp [FatalHandler.handle, accepts, terminalAction, hm, Run.called]
    · cases nx <;> simp [FatalHandler.handle, accepts, hm, Run.called]
  | ErrorHandler path_ =>
    by_cases hm : m.type = LogMessageType.error.toInt
    · simp [ErrorHandler.handle, accepts, terminalAction, hm, Run.called]
    · cases nx <;> simp [ErrorHandler.handle, accepts, hm, Run.called]
  | WarningHandler =>
    by_cases hm : m.type = LogMessageType.warning.toInt
    · simp [WarningHandler.handle, accepts, terminalAction, hm, Run.called]
    · cases nx <;> simp [WarningHandler.handle, accepts, hm, Run.called]
  | UnknownHandler =>
    simp [UnknownHandler.handle, accepts, terminalAction, Run.called]

theorem walk_of_accept (m : LogMessage) (w : World) :
    ∀ (l : List (Nat × HandlerClass)), (∃ x ∈ l, accepts x.2 m = true) →
      ∃ e, (walk l m w).outcome = e ∧ ∀ t, walk (l ++ t) m w = walk l m w := by
  intro l
  induction l with
  | nil => intro h; simp at h
  | cons x l ih =>
    intro h
    obtain ⟨a, c⟩ := x
    refine ⟨_, rfl, ?_⟩
    intro t
    by_cases hc : accepts c m = true
    · simp [walk, hc]
    · have hl : ∃ x ∈ l, accepts x.2 m = true := by
        obtain ⟨x, hx, hacc⟩ := h
        rcases List.mem_cons.1 hx with hx | hx
        · subst hx
          exact absurd hacc hc
        · exact ⟨x, hx, hacc⟩
      obtain ⟨_, _, hl2⟩ := ih hl
      simp only [Bool.not_eq_true] at hc
      simp [walk, hc, hl2 t]

/-- Dispatch from `p` once the last node of the chain from `p` points to `h`:
a handler of the chain that accepts the message ends the walk as before,
otherwise the walk goes on at `h`. -/
theorem handle_after_set (heap : Heap) (h last : Nat) (c : HandlerClass)
    (m : LogMessage) (w : World) (fuel : Nat) :
    ∀ (l0 : List (Nat × HandlerClass)) (p : Nat),
      isChain heap (some p) (l0 ++ [(last, c)]) = true →
      handle (heap.set last ⟨c, some h⟩) (l0.length + 1 + fuel) p m w =
        if (l0 ++ [(last, c)]).any (fun x => accepts x.2 m) = true then
          some (walk (l0 ++ [(last, c)]) m w)
        else
          (handle (heap.set last ⟨c, some h⟩) fuel h m w).map
            (fun r => ⟨r.world, r.outcome, (l0 ++ [(last, c)]).map Prod.fst ++ r.calls⟩) := by
  intro l0
  induction l0 with
  | nil =>
    intro p hch
    obtain ⟨hpa, nx, hget, _⟩ := (isChain_cons heap p last c []).1 hch
    subst hpa
    have hlt : p < heap.length := by
      by_contra hlt
      rw [List.getElem?_eq_none (by omega)] at hget
      exact absurd hget (by simp)
    have hget2 : (heap.set p ⟨c, some h⟩)[p]? = some ⟨c, some h⟩ :=
      List.getElem?_set_self hlt
    have hfuel : ([] : List (Nat × HandlerClass)).length + 1 + fuel = fuel + 1 := by
      simp
      omega
    rw [hfuel, handle_step _ p c (some h) m w fuel hget2]
    by_cases hc : accepts c m = true
    · simp [hc, walk]
    · simp only [Bool.not_eq_true] at hc
      simp only [hc, List.nil_append, List.any_cons, List.any_nil, Bool.or_false,
        Bool.false_eq_true, if_false, List.map_cons, List.map_nil, List.singleton_append]
      rfl
  | cons x l0 ih =>
    intro p hch
    obtain ⟨a, d⟩ := x
    obtain ⟨hpa, nx, hget, hrest⟩ := (isChain_cons heap p a d (l0 ++ [(last, c)])).1 hch
    subst hpa
    have hnd := isChain_nodup heap _ (some p) hch
    have hne : last ≠ p := by
      intro e
      simp [List.nodup_cons, e] at hnd
    cases nx with
    | none => simp [isChain_none] at hrest
    | some q =>
      have hget2 : (heap.set last ⟨c, some h⟩)[p]? = some ⟨d, some q⟩ := by
        rw [List.getElem?_set_ne hne, hget]
      have hfuel : ((p, d) :: l0).length + 1 + fuel = (l0.length + 1 + fuel) + 1 := by
        simp
        omega
      rw [hfuel, handle_step _ p d (some q) m w _ hget2]
      by_cases hd : accepts d m = true
      · simp [hd, walk]
      · simp only [Bool.not_eq_true] at hd
        simp only [hd, Bool.false_eq_true, if_false]
        rw [ih q hrest]
        by_cases hany : (l0 ++ [(last, c)]).any (fun x => accepts x.2 m) = true
        · simp [hd, hany, walk, Run.called]
        · simp only [Bool.not_eq_true] at hany
          simp only [hd, Bool.false_eq_true, if_false, hany, List.cons_append, List.any_cons,
            Bool.or_self, Option.map_map, List.map_cons]
          rfl

theorem any_accepts_iff (m : LogMessage) (l : List (Nat × HandlerClass)) :
    l.any (fun x => accepts x.2 m) = true ↔ ∃ x ∈ l, accepts x.2 m = true := by
  simp [List.any_eq_true]

theorem walk_returned_or_same_world (m : LogMessage) (w : World) :
    ∀ (l : List (Nat × HandlerClass)),
      (walk l m w).outcome = .returned ∨ (walk l m w).world = w := by
  intro l
  induction l with
  | nil => exact Or.inl rfl
  | cons x l ih =>
    obtain ⟨a, c⟩ := x
    by_cases hc : accepts c m = true
    · cases c <;> simp [walk, hc, terminalAction]
    · simp only [Bool.not_eq_true] at hc
      simpa [walk, hc, Run.called] using ih

/-- C4 (what the code does): a message whose severity is none of Fatal, Error,
Warning, dispatched through the head of a live chain root, Fatal,
Error(`path`), Warning, Unknown, reaches the Unknown handler and raises a
failure whose payload is the string `Unknow error`, which is not the string
`Unknown error`; the files and standard output are as they were. -/
theorem C4_unrecognized_raises_misspelt_payload (path : String) (msg : LogMessage)
    (w : World) (fuel : Nat)
    (h0 : msg.type ≠ LogMessageType.fatal_error.toInt)
    (h1 : msg.type ≠ LogMessageType.error.toInt)
    (h2 : msg.type ≠ LogMessageType.warning.toInt) (hfuel : 5 ≤ fuel) :
    ∃ heap, driverChain path = some heap ∧
      handle heap fuel 0 msg w = some ⟨w, .raised "Unknow error", [0, 1, 2, 3, 4]⟩ ∧
      Outcome.raised "Unknow error" ≠ Outcome.raised "Unknown error" := by
  obtain ⟨heap, hheap, hall⟩ := driverChain_handle path
  have hrun := hall msg w fuel hfuel
  refine ⟨heap, hheap, ?_, by decide⟩
  rw [hrun]
  simp [walk, accepts, terminalAction, Run.called, h0, h1, h2]

theorem C4_unrecognized_raises_misspelt_payload_witness :
    (LogMessage.ctor "unknown message" 10).type ≠ LogMessageType.fatal_error.toInt ∧
    (LogMessage.ctor "unknown message" 10).type ≠ LogMessageType.error.toInt ∧
    (LogMessage.ctor "unknown message" 10).type ≠ LogMessageType.warning.toInt ∧ 5 ≤ 5 ∧
    ∃ heap, driverChain "log.txt" = some heap ∧
      handle heap 5 0 (LogMessage.ctor "unknown message" 10) ⟨fun _ => "", ""⟩ =
        some ⟨⟨fun _ => "", ""⟩, .raised "Unknow error", [0, 1, 2, 3, 4]⟩ ∧
      Outcome.raised "Unknow error" ≠ Outcome.raised "Unknown error" :=
  ⟨by decide, by decide, by decide, by decide,
    C4_unrecognized_raises_misspelt_payload "log.txt" (LogMessage.ctor "unknown message" 10)
      ⟨fun _ => "", ""⟩ 5 (by decide) (by decide) (by decide) (by decide)⟩

/-! ## Chains in general -/

/-- C5: chain order is precedence. In the chain made of a root followed by
fresh handlers of classes `pre ++ c :: post`, when no handler of `pre` accepts
the message and `c` does, dispatch from the head performs exactly the terminal
action of `c`; the handlers invoked are the root, those of `pre` and `c` (the
addresses 0 to `pre.length + 1`), so no handler of `post` is invoked. -/
theorem C5_first_accepting_handler_acts (pre post : List HandlerClass) (c : HandlerClass)
    (msg : LogMessage) (w : World) (fuel : Nat)
    (hpre : ∀ d ∈ pre, accepts d msg = false) (hc : accepts c msg = true)
    (hfuel : (pre ++ c :: post).length + 1 ≤ fuel) :
    ∃ heap, buildChain (pre ++ c :: post) = some heap ∧
      handle heap fuel 0 msg w =
        some ⟨(terminalAction c msg w).1, (terminalAction c msg w).2,
          List.range (pre.length + 2)⟩ := by
  obtain ⟨heap, hb, _, hch⟩ := buildChain_spec (pre ++ c :: post)
  refine ⟨heap, hb, ?_⟩
  rw [handle_chain heap msg w _ fuel 0 hch (by simpa using hfuel)]
  rw [← List.cons_append, List.enum_append]
  have hnone : ∀ x ∈ (HandlerClass.Handler :: pre).enum, accepts x.2 msg = false := by
    intro x hx
    have hmem := List.snd_mem_of_mem_enum hx
    rcases List.mem_cons.1 hmem with h | h
    · rw [h]; rfl
    · exact hpre _ h
  rw [List.enumFrom_cons, walk_first msg w _ c _ hc _ hnone, List.enum_map_fst]
  simp [List.range_succ]

theorem C5_first_accepting_handler_acts_witness :
    (∀ d ∈ [HandlerClass.FatalHandler, HandlerClass.WarningHandler],
      accepts d (LogMessage.ctor "e" 1) = false) ∧
    accepts (HandlerClass.ErrorHandler "log.txt") (LogMessage.ctor "e" 1) = true ∧
    ([HandlerClass.FatalHandler, HandlerClass.WarningHandler] ++
      HandlerClass.ErrorHandler "log.txt" ::
        [HandlerClass.ErrorHandler "other.txt", HandlerClass.UnknownHandler]).length + 1 ≤ 6 ∧
    ∃ heap, buildChain ([HandlerClass.FatalHandler, HandlerClass.WarningHandler] ++
        HandlerClass.ErrorHandler "log.txt" ::
          [HandlerClass.ErrorHandler "other.txt", HandlerClass.UnknownHandler]) = some heap ∧
      handle heap 6 0 (LogMessage.ctor "e" 1) ⟨fun _ => "", ""⟩ =
        some ⟨(terminalAction (HandlerClass.ErrorHandler "log.txt") (LogMessage.ctor "e" 1)
            ⟨fun _ => "", ""⟩).1,
          (terminalAction (HandlerClass.ErrorHandler "log.txt") (LogMessage.ctor "e" 1)
            ⟨fun _ => "", ""⟩).2,
          List.range ([HandlerClass.FatalHandler, HandlerClass.WarningHandler].length + 2)⟩ :=
  ⟨by decide, by decide, by decide,
    C5_first_accepting_handler_acts [.FatalHandler, .WarningHandler]
      [.ErrorHandler "other.txt", .UnknownHandler] (.ErrorHandler "log.txt")
      (LogMessage.ctor "e" 1) ⟨fun _ => "", ""⟩ 6 (by decide) (by decide) (by decide)⟩

/-- C7: `append_next` on the head of an acyclic chain whose nodes are
`l0 ++ [(last, c)]`, with a handler `h` that is not one of them, terminates
and changes only the field `next_` of the former last node, which becomes `h`:
every other object, and the class of the last one, are as before. When `h`
heads a chain `t` that shares no node with the old chain (a fresh handler has
`t = [h]`), the head now heads the chain of the old nodes in their old order
followed by `t`. -/
theorem C7_append_next_attaches_at_tail (heap : Heap) (h0 last h : Nat) (c : HandlerClass)
    (l0 : List (Nat × HandlerClass)) (fuel : Nat)
    (hchain : isChain heap (some h0) (l0 ++ [(last, c)]) = true)
    (hnot : h ∉ (l0 ++ [(last, c)]).map Prod.fst)
    (hfuel : (l0 ++ [(last, c)]).length ≤ fuel) :
    ∃ heap2, append_next heap fuel h0 h = some heap2 ∧
      heap2 = heap.set last ⟨c, some h⟩ ∧
      heap2[last]? = some ⟨c, some h⟩ ∧
      (∀ a, a ≠ last → heap2[a]? = heap[a]?) ∧
      h ≠ last ∧
      (∀ t, isChain heap (some h) t = true →
        (∀ a ∈ t.map Prod.fst, a ∉ (l0 ++ [(last, c)]).map Prod.fst) →
        isChain heap2 (some h0) (l0 ++ [(last, c)] ++ t) = true) := by
  have hlast : last < heap.length :=
    isChain_mem_lt heap _ (some h0) hchain last (by simp)
  refine ⟨_, append_next_chain heap h last c l0 fuel h0 hchain (by simpa using hfuel), rfl,
    List.getElem?_set_self hlast, ?_, ?_, ?_⟩
  · intro a ha
    exact List.getElem?_set_ne (fun e => ha e.symm)
  · intro e
    exact hnot (by simp [e])
  · intro t ht hdisj
    exact isChain_set_last heap h last c t ht l0 h0 hchain hdisj

theorem C7_append_next_attaches_at_tail_witness :
    isChain [⟨.Handler, some 1⟩, ⟨.FatalHandler, none⟩, ⟨.WarningHandler, none⟩] (some 0)
      ([(0, HandlerClass.Handler)] ++ [(1, HandlerClass.FatalHandler)]) = true ∧
    2 ∉ ([(0, HandlerClass.Handler)] ++ [(1, HandlerClass.FatalHandler)]).map Prod.fst ∧
    ([(0, HandlerClass.Handler)] ++ [(1, HandlerClass.FatalHandler)]).length ≤ 2 ∧
    ∃ heap2,
      append_next [⟨.Handler, some 1⟩, ⟨.FatalHandler, none⟩, ⟨.WarningHandler, none⟩] 2 0 2 =
        some heap2 ∧
      heap2 = ([⟨.Handler, some 1⟩, ⟨.FatalHandler, none⟩, ⟨.WarningHandler, none⟩] : Heap).set 1
        ⟨.FatalHandler, some 2⟩ ∧
      heap2[1]? = some ⟨.FatalHandler, some 2⟩ ∧
      (∀ a, a ≠ 1 → heap2[a]? =
        ([⟨.Handler, some 1⟩, ⟨.FatalHandler, none⟩, ⟨.WarningHandler, none⟩] : Heap)[a]?) ∧
      2 ≠ 1 ∧
      (∀ t, isChain [⟨.Handler, some 1⟩, ⟨.FatalHandler, none⟩, ⟨.WarningHandler, none⟩]
          (some 2) t = true →
        (∀ a ∈ t.map Prod.fst,
          a ∉ ([(0, HandlerClass.Handler)] ++ [(1, HandlerClass.FatalHandler)]).map Prod.fst) →
        isChain heap2 (some 0)
          ([(0, HandlerClass.Handler)] ++ [(1, HandlerClass.FatalHandler)] ++ t) = true) :=
  ⟨by decide, by decide, by decide,
    C7_append_next_attaches_at_tail
      [⟨.Handler, some 1⟩, ⟨.FatalHandler, none⟩, ⟨.WarningHandler, none⟩] 0 1 2 .FatalHandler
      [(0, .Handler)] 2 (by decide) (by decide) (by decide)⟩

/-- C8: in a chain made of a root followed by fresh handlers of classes `cs`,
none of them an `UnknownHandler`, a message that no handler of the chain
accepts is dropped at the end of the chain: dispatch from the head returns
normally after invoking every node once, and the files and standard output
are as they were. -/
theorem C8_unmatched_message_is_dropped (cs : List HandlerClass) (msg : LogMessage)
    (w : World) (fuel : Nat)
    (hno : ∀ c ∈ cs, c ≠ HandlerClass.UnknownHandler)
    (hacc : ∀ c ∈ cs, c ≠ HandlerClass.UnknownHandler → accepts c msg = false)
    (hfuel : cs.length + 1 ≤ fuel) :
    ∃ heap, buildChain cs = some heap ∧
      handle heap fuel 0 msg w = some ⟨w, .returned, List.range (cs.length + 1)⟩ := by
  obtain ⟨heap, hb, _, hch⟩ := buildChain_spec cs
  refine ⟨heap, hb, ?_⟩
  rw [handle_chain heap msg w _ fuel 0 hch (by simpa using hfuel)]
  have hnone : ∀ x ∈ (HandlerClass.Handler :: cs).enum, accepts x.2 msg = false := by
    intro x hx
    have hmem := List.snd_mem_of_mem_enum hx
    rcases List.mem_cons.1 hmem with h | h
    · rw [h]; rfl
    · exact hacc _ h (hno _ h)
  rw [walk_none msg w _ hnone, List.enum_map_fst]
  simp

theorem C8_unmatched_message_is_dropped_witness :
    (∀ c ∈ [HandlerClass.FatalHandler, HandlerClass.ErrorHandler "log.txt"],
      c ≠ HandlerClass.UnknownHandler) ∧
    (∀ c ∈ [HandlerClass.FatalHandler, HandlerClass.ErrorHandler "log.txt"],
      c ≠ HandlerClass.UnknownHandler → accepts c (LogMessage.ctor "w" 2) = false) ∧
    [HandlerClass.FatalHandler, HandlerClass.ErrorHandler "log.txt"].length + 1 ≤ 3 ∧
    ∃ heap, buildChain [HandlerClass.FatalHandler, HandlerClass.ErrorHandler "log.txt"] =
        some heap ∧
      handle heap 3 0 (LogMessage.ctor "w" 2) ⟨fun _ => "", ""⟩ =
        some ⟨⟨fun _ => "", ""⟩, .returned,
          List.range ([HandlerClass.FatalHandler,
            HandlerClass.ErrorHandler "log.txt"].length + 1)⟩ :=
  ⟨by decide, by decide, by decide,
    C8_unmatched_message_is_dropped [.FatalHandler, .ErrorHandler "log.txt"]
      (LogMessage.ctor "w" 2) ⟨fun _ => "", ""⟩ 3 (by decide) (by decide) (by decide)⟩

/-- C9: `handle` on an `UnknownHandler` object is unconditional. Whatever the
message (severity and text), whatever the heap and whatever the object's
`next_`, the call raises a failure with the same fixed payload, leaves the
files and standard output as they were, and invokes no other handler. -/
theorem C9_unknown_handler_always_raises (heap : Heap) (p : Nat) (nx : Option Nat)
    (msg : LogMessage) (w : World) (fuel : Nat)
    (hobj : heap[p]? = some ⟨.UnknownHandler, nx⟩) :
    handle heap (fuel + 1) p msg w = some ⟨w, .raised "Unknow error", [p]⟩ := by
  simp [handle, hobj, UnknownHandler.handle, Run.called]

theorem C9_unknown_handler_always_raises_witness :
    ([⟨.UnknownHandler, some 1⟩, ⟨.WarningHandler, none⟩] : Heap)[0]? =
      some ⟨.UnknownHandler, some 1⟩ ∧
    handle [⟨.UnknownHandler, some 1⟩, ⟨.WarningHandler, none⟩] (1 + 1) 0
      (LogMessage.ctor "warning message" 2) ⟨fun _ => "", ""⟩ =
        some ⟨⟨fun _ => "", ""⟩, .raised "Unknow error", [0]⟩ :=
  ⟨by decide,
    C9_unknown_handler_always_raises [⟨.UnknownHandler, some 1⟩, ⟨.WarningHandler, none⟩] 0
      (some 1) (LogMessage.ctor "warning message" 2) ⟨fun _ => "", ""⟩ 1 (by decide)⟩

/-- C10: dispatch from the head of an acyclic chain of `l.length` handlers
terminates (fuel `l.length` is enough, and more fuel gives the same run); it
invokes at most `l.length` handlers, and the handlers invoked are an initial
segment of the chain, so they are invoked in chain order and none twice. -/
theorem C10_dispatch_terminates_within_chain_length (heap : Heap) (head : Nat)
    (l : List (Nat × HandlerClass)) (msg : LogMessage) (w : World) (fuel : Nat)
    (hchain : isChain heap (some head) l = true) (hfuel : l.length ≤ fuel) :
    ∃ r, handle heap fuel head msg w = some r ∧
      handle heap l.length head msg w = some r ∧
      r.calls.length ≤ l.length ∧
      r.calls <+: l.map Prod.fst ∧
      r.calls.Nodup ∧ (l.map Prod.fst).Nodup := by
  have hpre := walk_calls_prefix msg w l
  have hnd := isChain_nodup heap l (some head) hchain
  refine ⟨walk l msg w, handle_chain heap msg w l fuel head hchain hfuel,
    handle_chain heap msg w l l.length head hchain (le_refl _), ?_, hpre, ?_, hnd⟩
  · simpa using hpre.length_le
  · exact hpre.sublist.nodup hnd

theorem C10_dispatch_terminates_within_chain_length_witness :
    isChain [⟨.Handler, some 1⟩, ⟨.FatalHandler, some 2⟩, ⟨.WarningHandler, none⟩] (some 0)
      [(0, .Handler), (1, .FatalHandler), (2, .WarningHandler)] = true ∧
    [(0, HandlerClass.Handler), (1, HandlerClass.FatalHandler),
      (2, HandlerClass.WarningHandler)].length ≤ 7 ∧
    ∃ r, handle [⟨.Handler, some 1⟩, ⟨.FatalHandler, some 2⟩, ⟨.WarningHandler, none⟩] 7 0
        (LogMessage.ctor "fatal message" 0) ⟨fun _ => "", ""⟩ = some r ∧
      handle [⟨.Handler, some 1⟩, ⟨.FatalHandler, some 2⟩, ⟨.WarningHandler, none⟩]
        [(0, HandlerClass.Handler), (1, HandlerClass.FatalHandler),
          (2, HandlerClass.WarningHandler)].length 0
        (LogMessage.ctor "fatal message" 0) ⟨fun _ => "", ""⟩ = some r ∧
      r.calls.length ≤ [(0, HandlerClass.Handler), (1, HandlerClass.FatalHandler),
        (2, HandlerClass.WarningHandler)].length ∧
      r.calls <+: [(0, HandlerClass.Handler), (1, HandlerClass.FatalHandler),
        (2, HandlerClass.WarningHandler)].map Prod.fst ∧
      r.calls.Nodup ∧
      ([(0, HandlerClass.Handler), (1, HandlerClass.FatalHandler),
        (2, HandlerClass.WarningHandler)].map Prod.fst).Nodup :=
  ⟨by decide, by decide,
    C10_dispatch_terminates_within_chain_length
      [⟨.Handler, some 1⟩, ⟨.FatalHandler, some 2⟩, ⟨.WarningHandler, none⟩] 0
      [(0, .Handler), (1, .FatalHandler), (2, .WarningHandler)]
      (LogMessage.ctor "fatal message" 0) ⟨fun _ => "", ""⟩ 7 (by decide) (by decide)⟩

/-! ## Messages, the root, failures, appending, and batches without failure -/

/-- C11: a `LogMessage` constructed from a text and a severity value returns
exactly that severity from `type()` and exactly that text from `message()`.
The accessors are functions of the message, so calling them changes nothing,
and a message is determined by what they return. -/
theorem C11_accessors_return_constructor_arguments (text : String) (severity : Int) :
    (LogMessage.ctor text severity).type = severity ∧
    (LogMessage.ctor text severity).message = text ∧
    LogMessage.ctor (LogMessage.ctor text severity).message
      (LogMessage.ctor text severity).type = LogMessage.ctor text severity :=
  ⟨rfl, rfl, rfl⟩

/-- C12: the root `Handler` is a pure pass-through. When its `next_` is `q`,
a call on the root is the call on `q` with the same environment afterwards and
the same outcome (same failure payload), the root only being added in front of
the handlers invoked; when `q` heads a chain `t`, both calls give a result
with the same fuel. When its `next_` is `nullptr`, the call returns normally
and changes nothing. -/
theorem C12_root_is_pass_through (heap : Heap) (p : Nat) (nx : Option Nat)
    (msg : LogMessage) (w : World) (fuel : Nat)
    (hroot : heap[p]? = some ⟨.Handler, nx⟩) :
    (∀ q, nx = some q →
      handle heap (fuel + 1) p msg w =
        (handle heap fuel q msg w).map (fun r => ⟨r.world, r.outcome, p :: r.calls⟩)) ∧
    (∀ q t, nx = some q → isChain heap (some q) t = true → t.length + 1 ≤ fuel →
      ∃ r, handle heap fuel q msg w = some r ∧
        handle heap fuel p msg w = some ⟨r.world, r.outcome, p :: r.calls⟩) ∧
    (nx = none → handle heap (fuel + 1) p msg w = some ⟨w, .returned, [p]⟩) := by
  refine ⟨?_, ?_, ?_⟩
  · intro q hq
    subst hq
    rw [handle_step heap p .Handler (some q) msg w fuel hroot]
    simp only [accepts, Bool.false_eq_true, if_false]
    rfl
  · intro q t hq ht hfuel
    subst hq
    have hp : isChain heap (some p) ((p, .Handler) :: t) = true :=
      (isChain_cons heap p p .Handler t).2 ⟨rfl, some q, hroot, ht⟩
    refine ⟨walk t msg w, handle_chain heap msg w t fuel q ht (by omega), ?_⟩
    rw [handle_chain heap msg w _ fuel p hp (by simpa using hfuel)]
    simp [walk, accepts, Run.called]
  · intro hnx
    subst hnx
    rw [handle_step heap p .Handler none msg w fuel hroot]
    simp [accepts]

theorem C12_root_is_pass_through_witness :
    ([⟨.Handler, some 1⟩, ⟨.WarningHandler, none⟩] : Heap)[0]? = some ⟨.Handler, some 1⟩ ∧
    ((∀ q, some 1 = some q →
      handle [⟨.Handler, some 1⟩, ⟨.WarningHandler, none⟩] (2 + 1) 0
          (LogMessage.ctor "warning message" 2) ⟨fun _ => "", ""⟩ =
        (handle [⟨.Handler, some 1⟩, ⟨.WarningHandler, none⟩] 2 q
          (LogMessage.ctor "warning message" 2) ⟨fun _ => "", ""⟩).map
          (fun r => ⟨r.world, r.outcome, 0 :: r.calls⟩)) ∧
    (∀ q t, some 1 = some q →
      isChain [⟨.Handler, some 1⟩, ⟨.WarningHandler, none⟩] (some q) t = true →
      t.length + 1 ≤ 2 →
      ∃ r, handle [⟨.Handler, some 1⟩, ⟨.WarningHandler, none⟩] 2 q
          (LogMessage.ctor "warning message" 2) ⟨fun _ => "", ""⟩ = some r ∧
        handle [⟨.Handler, some 1⟩, ⟨.WarningHandler, none⟩] 2 0
          (LogMessage.ctor "warning message" 2) ⟨fun _ => "", ""⟩ =
            some ⟨r.world, r.outcome, 0 :: r.calls⟩) ∧
    (some 1 = none →
      handle [⟨.Handler, some 1⟩, ⟨.WarningHandler, none⟩] (2 + 1) 0
          (LogMessage.ctor "warning message" 2) ⟨fun _ => "", ""⟩ =
        some ⟨⟨fun _ => "", ""⟩, .returned, [0]⟩)) :=
  ⟨by decide,
    C12_root_is_pass_through [⟨.Handler, some 1⟩, ⟨.WarningHandler, none⟩] 0 (some 1)
      (LogMessage.ctor "warning message" 2) ⟨fun _ => "", ""⟩ 2 (by decide)⟩

/-- C13: failure is atomic with respect to the sinks. Dispatch from the head
of a chain gives a result; if that result is a raised failure, the files and
standard output are exactly as before the call; and if a file or standard
output differs from before, the call returned normally. -/
theorem C13_failure_leaves_sinks_untouched (heap : Heap) (head : Nat)
    (l : List (Nat × HandlerClass)) (msg : LogMessage) (w : World) (fuel : Nat)
    (hchain : isChain heap (some head) l = true) (hfuel : l.length ≤ fuel) :
    ∃ r, handle heap fuel head msg w = some r ∧
      (∀ e, r.outcome = .raised e → r.world.files = w.files ∧ r.world.stdout = w.stdout) ∧
      ((r.world.files ≠ w.files ∨ r.world.stdout ≠ w.stdout) → r.outcome = .returned) := by
  refine ⟨walk l msg w, handle_chain heap msg w l fuel head hchain hfuel, ?_, ?_⟩
  · intro e he
    rcases walk_returned_or_same_world msg w l with h | h
    · rw [h] at he
      cases he
    · rw [h]
      exact ⟨rfl, rfl⟩
  · intro hdiff
    rcases walk_returned_or_same_world msg w l with h | h
    · exact h
    · rw [h] at hdiff
      rcases hdiff with hd | hd <;> exact absurd rfl hd

theorem C13_failure_leaves_sinks_untouched_witness :
    isChain [⟨.Handler, some 1⟩, ⟨.ErrorHandler "log.txt", some 2⟩, ⟨.FatalHandler, none⟩]
      (some 0) [(0, .Handler), (1, .ErrorHandler "log.txt"), (2, .FatalHandler)] = true ∧
    [(0, HandlerClass.Handler), (1, HandlerClass.ErrorHandler "log.txt"),
      (2, HandlerClass.FatalHandler)].length ≤ 3 ∧
    ∃ r, handle [⟨.Handler, some 1⟩, ⟨.ErrorHandler "log.txt", some 2⟩, ⟨.FatalHandler, none⟩]
        3 0 (LogMessage.ctor "fatal message" 0) ⟨fun _ => "", ""⟩ = some r ∧
      (∀ e, r.outcome = .raised e →
        r.world.files = (fun _ => "") ∧ r.world.stdout = "") ∧
      ((r.world.files ≠ (fun _ => "") ∨ r.world.stdout ≠ "") → r.outcome = .returned) :=
  ⟨by decide, by decide,
    C13_failure_leaves_sinks_untouched
      [⟨.Handler, some 1⟩, ⟨.ErrorHandler "log.txt", some 2⟩, ⟨.FatalHandler, none⟩] 0
      [(0, .Handler), (1, .ErrorHandler "log.txt"), (2, .FatalHandler)]
      (LogMessage.ctor "fatal message" 0) ⟨fun _ => "", ""⟩ 3 (by decide) (by decide)⟩

/-- C14: `append_next` never changes the outcome of a message that the chain
already consumes. For an acyclic chain with nodes `l0 ++ [(last, c)]` and any
handler `h`, `append_next` gives a heap in which: a message that some handler
of the chain accepts has the identical run as before; a message that no
handler of the chain accepts was dropped before (normal return, nothing
changed) and now has the environment and outcome of dispatching it to `h`.
When `h` heads a chain that shares no node with the old one, dispatching to
`h` is the same before and after the append and gives a result. -/
theorem C14_append_keeps_consumed_outcomes (heap : Heap) (head last h : Nat)
    (c : HandlerClass) (l0 : List (Nat × HandlerClass)) (msg : LogMessage) (w : World)
    (fuel : Nat) (hchain : isChain heap (some head) (l0 ++ [(last, c)]) = true) :
    ∃ heap2, append_next heap (l0.length + 1 + fuel) head h = some heap2 ∧
      ((∃ x ∈ l0 ++ [(last, c)], accepts x.2 msg = true) →
        ∃ r, handle heap (l0.length + 1 + fuel) head msg w = some r ∧
          handle heap2 (l0.length + 1 + fuel) head msg w = some r) ∧
      ((∀ x ∈ l0 ++ [(last, c)], accepts x.2 msg = false) →
        handle heap (l0.length + 1 + fuel) head msg w =
          some ⟨w, .returned, (l0 ++ [(last, c)]).map Prod.fst⟩ ∧
        handle heap2 (l0.length + 1 + fuel) head msg w =
          (handle heap2 fuel h msg w).map
            (fun r => ⟨r.world, r.outcome, (l0 ++ [(last, c)]).map Prod.fst ++ r.calls⟩)) ∧
      (∀ t, isChain heap (some h) t = true →
        (∀ a ∈ t.map Prod.fst, a ∉ (l0 ++ [(last, c)]).map Prod.fst) → t.length ≤ fuel →
        ∃ r, handle heap fuel h msg w = some r ∧ handle heap2 fuel h msg w = some r) := by
  have hlen : (l0 ++ [(last, c)]).length ≤ l0.length + 1 + fuel := by
    simp
  refine ⟨_, append_next_chain heap h last c l0 _ head hchain (by omega), ?_, ?_, ?_⟩
  · intro hacc
    refine ⟨_, handle_chain heap msg w _ _ head hchain hlen, ?_⟩
    rw [handle_after_set heap h last c msg w fuel l0 head hchain,
      if_pos ((any_accepts_iff msg _).2 hacc)]
  · intro hnone
    have hany : ¬ (l0 ++ [(last, c)]).any (fun x => accepts x.2 msg) = true := by
      intro hany
      obtain ⟨x, hx, hacc⟩ := (any_accepts_iff msg _).1 hany
      rw [hnone x hx] at hacc
      cases hacc
    refine ⟨?_, ?_⟩
    · rw [handle_chain heap msg w _ _ head hchain hlen, walk_none msg w _ hnone]
    · rw [handle_after_set heap h last c msg w fuel l0 head hchain, if_neg hany]
  · intro t ht hdisj hfuel
    have hlast : last ∉ t.map Prod.fst := fun hm => hdisj last hm (by simp)
    have ht2 := isChain_set_of_not_mem heap last ⟨c, some h⟩ t (some h) ht hlast
    exact ⟨_, handle_chain heap msg w t fuel h ht hfuel,
      handle_chain _ msg w t fuel h ht2 hfuel⟩

theorem C14_append_keeps_consumed_outcomes_witness :
    isChain [⟨.Handler, some 1⟩, ⟨.FatalHandler, none⟩, ⟨.WarningHandler, none⟩] (some 0)
      ([(0, HandlerClass.Handler)] ++ [(1, HandlerClass.FatalHandler)]) = true ∧
    ∃ heap2,
      append_next [⟨.Handler, some 1⟩, ⟨.FatalHandler, none⟩, ⟨.WarningHandler, none⟩]
        ([(0, HandlerClass.Handler)].length + 1 + 1) 0 2 = some heap2 ∧
      ((∃ x ∈ [(0, HandlerClass.Handler)] ++ [(1, HandlerClass.FatalHandler)],
          accepts x.2 (LogMessage.ctor "warning message" 2) = true) →
        ∃ r, handle [⟨.Handler, some 1⟩, ⟨.FatalHandler, none⟩, ⟨.WarningHandler, none⟩]
            ([(0, HandlerClass.Handler)].length + 1 + 1) 0
            (LogMessage.ctor "warning message" 2) ⟨fun _ => "", ""⟩ = some r ∧
          handle heap2 ([(0, HandlerClass.Handler)].length + 1 + 1) 0
            (LogMessage.ctor "warning message" 2) ⟨fun _ => "", ""⟩ = some r) ∧
      ((∀ x ∈ [(0, HandlerClass.Handler)] ++ [(1, HandlerClass.FatalHandler)],
          accepts x.2 (LogMessage.ctor "warning message" 2) = false) →
        handle [⟨.Handler, some 1⟩, ⟨.FatalHandler, none⟩, ⟨.WarningHandler, none⟩]
            ([(0, HandlerClass.Handler)].length + 1 + 1) 0
            (LogMessage.ctor "warning message" 2) ⟨fun _ => "", ""⟩ =
          some ⟨⟨fun _ => "", ""⟩, .returned,
            ([(0, HandlerClass.Handler)] ++ [(1, HandlerClass.FatalHandler)]).map Prod.fst⟩ ∧
        handle heap2 ([(0, HandlerClass.Handler)].length + 1 + 1) 0
            (LogMessage.ctor "warning message" 2) ⟨fun _ => "", ""⟩ =
          (handle heap2 1 2 (LogMessage.ctor "warning message" 2) ⟨fun _ => "", ""⟩).map
            (fun r => ⟨r.world, r.outcome,
              ([(0, HandlerClass.Handler)] ++ [(1, HandlerClass.FatalHandler)]).map Prod.fst ++
                r.calls⟩)) ∧
      (∀ t, isChain [⟨.Handler, some 1⟩, ⟨.FatalHandler, none⟩, ⟨.WarningHandler, none⟩]
          (some 2) t = true →
        (∀ a ∈ t.map Prod.fst,
          a ∉ ([(0, HandlerClass.Handler)] ++ [(1, HandlerClass.FatalHandler)]).map Prod.fst) →
        t.length ≤ 1 →
        ∃ r, handle [⟨.Handler, some 1⟩, ⟨.FatalHandler, none⟩, ⟨.WarningHandler, none⟩] 1 2
            (LogMessage.ctor "warning message" 2) ⟨fun _ => "", ""⟩ = some r ∧
          handle heap2 1 2 (LogMessage.ctor "warning message" 2) ⟨fun _ => "", ""⟩ = some r) :=
  ⟨by decide,
    C14_append_keeps_consumed_outcomes
      [⟨.Handler, some 1⟩, ⟨.FatalHandler, none⟩, ⟨.WarningHandler, none⟩] 0 1 2 .FatalHandler
      [(0, .Handler)] (LogMessage.ctor "warning message" 2) ⟨fun _ => "", ""⟩ 1 (by decide)⟩

end LogChain
